import Mathlib

/-!
Verification of the input-scanning core of an AWK-style stream processor
(`scan` package: `MultiSource`, `simpleLineReader`, `rxLineReader`, `Scanner`).

The Go code is shallowly embedded: each Go function is translated into an
executable Lean definition over explicit state.  A Go `io.Reader` is
characterised by the sequence of read results it will produce; errors are
the sum `RErr` of `io.EOF`, the internal `endOfSource` sentinel, and other
errors carrying their message text.
-/

namespace Scan

/-- Read errors: `io.EOF`, the internal `endOfSource` sentinel produced by
`multiSource`, and any other error carrying its text. -/
inductive RErr where
  | eof
  | eos
  | other (msg : String)
deriving DecidableEq

/-! ## MultiSource (`multiSource.Read`, `multiSource.Name`)

A single underlying source entry is modelled by its `name` and the list of
`(n, err)` results its successive `Read` calls return; once the list is
exhausted the entry keeps returning `(0, io.EOF)`, as a drained Go reader
does. -/

/-- One entry of a `multiSource`: a name and the successive read results. -/
structure Src where
  name : String
  steps : List (Nat × Option RErr)
deriving DecidableEq

/-- One `Read` call on a single entry: pops the next scripted result, or
`(0, io.EOF)` when the script is exhausted. -/
def srcRead : Src → (Nat × Option RErr) × Src
  | ⟨nm, []⟩ => ((0, some .eof), ⟨nm, []⟩)
  | ⟨nm, st :: rest⟩ => (st, ⟨nm, rest⟩)

/-- Total number of scripted read results across a list of entries
(termination measure for `msRead`). -/
def stepsSum (srcs : List Src) : Nat :=
  (srcs.map (fun s => s.steps.length)).sum

/-- `multiSource.Read` (part_000 lines 36–51): loop while entries remain;
read from the first entry; on `io.EOF` pop it and, if entries remain,
override the error to `endOfSource` leaving `n` untouched; otherwise return
whatever the entry returned, looping only on a zero-byte errorless read.
Returns the read result together with the updated entry list. -/
def msRead (srcs : List Src) : (Nat × Option RErr) × List Src :=
  match srcs with
  | [] => ((0, some .eof), [])
  | s :: rest =>
    match h : srcRead s with
    | ((n, e), s') =>
      if e = some .eof then
        if rest = [] then ((n, some .eof), [])
        else ((n, some .eos), rest)
      else if 0 < n ∨ e ≠ none then ((n, e), s' :: rest)
      else msRead (s' :: rest)
termination_by stepsSum srcs
decreasing_by
  simp only [stepsSum, List.map_cons, List.sum_cons]
  have hlt : s'.steps.length < s.steps.length := by
    rcases s with ⟨nm, steps⟩
    cases steps with
    | nil =>
      simp [srcRead] at h
      simp_all
    | cons a as =>
      simp only [srcRead] at h
      injection h with h1 h2
      rw [← h2]
      simp
  omega

/-- `multiSource.Name` (part_000 lines 53–58): name of the entry at the
cursor, or the empty string when exhausted. -/
def msName : List Src → String
  | [] => ""
  | s :: _ => s.name

/-! ## simpleLineReader (`simpleLineReader.ReadLine`)

The buffered reader over a single source is modelled by its remaining
bytes; the only error it produces is `io.EOF`. -/

/-- `bufio.Reader.ReadBytes('\n')` over the remaining bytes of a single
source: returns the bytes up to and including the first newline, or all
remaining bytes together with `io.EOF` when no newline remains.  Returns
the line, the error, and the remaining bytes. -/
def readBytesNL : List Char → (List Char × Option RErr) × List Char
  | [] => (([], some .eof), [])
  | c :: rest =>
    if c = '\n' then (([c], none), rest)
    else
      match readBytesNL rest with
      | ((l, e), r) => ((c :: l, e), r)

/-- `simpleLineReader.ReadLine` (part_000 lines 241–247): call
`ReadBytes('\n')` and, whenever the returned slice is non-empty, drop its
last byte (`line = line[:len(line)-1]`). -/
def slrReadLine (s : List Char) : (List Char × Option RErr) × List Char :=
  match readBytesNL s with
  | ((line, e), rest) =>
    ((if line = [] then line else line.dropLast, e), rest)

/-! ## Scanner -/

/-- One event observed when reading from the scanner's line reader: a
successful chunk of bytes, or a read error.  A `multiSource` behind a
`simpleLineReader` produces its data chunks interleaved with `endOfSource`
sentinels and a final `io.EOF`; an exhausted reader keeps returning
`io.EOF`, modelled by the empty event list. -/
inductive REv where
  | data (s : String)
  | rerr (e : RErr)
deriving DecidableEq

/-- `ioutil.ReadAll` as called by `Scanner.Scan`: accumulate chunks until
the first error; `io.EOF` is swallowed (reported as success).  Returns the
accumulated bytes, the error, and the remaining event stream. -/
def readAll : List REv → (String × Option RErr) × List REv
  | [] => (("", none), [])
  | .data s :: rest =>
    match readAll rest with
    | ((d, e), r) => ((s ++ d, e), r)
  | .rerr .eof :: rest => (("", none), rest)
  | .rerr e :: rest => (("", some e), rest)

/-- Go's `unicode.IsSpace` restricted to ASCII: space, tab, newline,
vertical tab, form feed, carriage return. -/
def goIsSpace (c : Char) : Bool :=
  c = ' ' || c = '\t' || c = '\n' || c = '\x0b' || c = '\x0c' || c = '\r'

/-- Split a character list at every character satisfying `p`, keeping the
(possibly empty) pieces between separators. -/
def splitChars (p : Char → Bool) : List Char → List (List Char)
  | [] => [[]]
  | c :: rest =>
    if p c then [] :: splitChars p rest
    else
      match splitChars p rest with
      | l :: ls => (c :: l) :: ls
      | [] => [[c]]

/-- `strings.Fields` (for ASCII input): the maximal non-empty runs of
non-whitespace characters. -/
def goFields (s : String) : List String :=
  ((splitChars goIsSpace s.toList).map (fun l => String.mk l)).filter (fun f => f ≠ "")

/-- `Scanner` state (part_000 lines 62–72).  The line reader is represented
by the event stream its reads will produce (consumed by the `ReadAll` call
inside `Scan`), `none` when no source was set; a compiled field-separator
regex is represented by its `Split` function. -/
structure Scanner where
  lr : Option (List REv)
  fieldsRx : Option (String → List String)
  err : Option String
  recNumber : Nat
  fileRecNumber : Nat
  record : String
  fields : List String

/-- `Scanner.splitRecord` (part_000 lines 149–162): store the record; with
a field regex, split the record by it, then drop a leading empty field when
present and a trailing empty field when present; without one, split into
whitespace-separated fields. -/
def splitRecord (sc : Scanner) (rec : String) : Scanner :=
  let sc1 := { sc with record := rec }
  match sc1.fieldsRx with
  | some split =>
    let fs0 := split rec
    let fs1 := if fs0.head? = some "" then fs0.tail else fs0
    let fs2 := if fs1.getLast? = some "" then fs1.dropLast else fs1
    { sc1 with fields := fs2 }
  | none => { sc1 with fields := goFields rec }

/-- `Scanner.Scan` (part_000 lines 118–147), as written in the source: bulk
`ioutil.ReadAll` of the line reader, `fail` when no bytes arrived or a
non-`io.EOF` error did, and on success split the whole blob as one record
and bump both counters.  (The streaming `ReadLine`-based body is commented
out in the source.) -/
def scan (sc : Scanner) : Bool × Scanner :=
  if sc.err ≠ none then (false, sc)
  else
    match sc.lr with
    | none => (false, { sc with err := some "scan: nil reader" })
    | some evs =>
      match readAll evs with
      | ((bytes, e), rest) =>
        let sc1 := { sc with lr := some rest }
        let fail := bytes.length = 0 ∨ (e ≠ none ∧ e ≠ some .eof)
        if fail then (false, sc1)
        else
          let sc2 := splitRecord sc1 bytes
          (true, { sc2 with recNumber := sc2.recNumber + 1,
                            fileRecNumber := sc2.fileRecNumber + 1 })

/-- `Scanner.Field` (part_000 lines 171–184).  A Go panic (negative index)
is modelled as `none`; a normally returned string as `some`. -/
def field (sc : Scanner) (i : Int) : Option String :=
  if sc.err ≠ none then some ""
  else if i < 0 then none
  else if i = 0 then some sc.record
  else if i ≤ sc.fields.length then sc.fields.get? (i.toNat - 1)
  else some ""

/-- `Scanner.Err` (part_000 lines 164–166). -/
def errOf (sc : Scanner) : Option String := sc.err

/-- `Scanner.RecordNumber` (part_000 lines 187–189). -/
def recordNumber (sc : Scanner) : Nat := sc.recNumber

/-- `Scanner.FieldCount` (part_000 lines 192–194). -/
def fieldCount (sc : Scanner) : Nat := sc.fields.length

/-- `Scanner.FileRecordNumber` (part_000 lines 206–208). -/
def fileRecordNumber (sc : Scanner) : Nat := sc.fileRecNumber

/-! ## rxLineReader -/

/-- One scripted response of the underlying source wrapped by an
`rxLineReader`: the bytes one `Read` call delivers together with the error
it reports.  A response longer than the read buffer is delivered across
several reads with its error deferred, as Go's buffered and string readers
behave. -/
structure Resp where
  bytes : List Char
  rerr : Option RErr
deriving DecidableEq

/-- One `Read(buf[:n])` call on the scripted source: delivers up to `n`
bytes of the front response; an exhausted script keeps returning
`(0, io.EOF)`. -/
def srcReadN (n : Nat) : List Resp → (List Char × Option RErr) × List Resp
  | [] => (([], some .eof), [])
  | r :: rest =>
    if r.bytes.length ≤ n then ((r.bytes, r.rerr), rest)
    else ((r.bytes.take n, none), ⟨r.bytes.drop n, r.rerr⟩ :: rest)

/-- `rxLineReader` state (part_000 lines 253–260): the unconsumed bytes
`ptr`, the scripted underlying source, and the separator state `stat`
(`0` open, `1` sourceEnd, `2` finished).  The cached source name is not
modelled: no claim observes it and it does not influence the bytes or
errors that `ReadLine` returns. -/
structure RxS where
  ptr : List Char
  src : List Resp
  stat : Nat
deriving DecidableEq

/-- `rxLineReader.loadBufN` (part_000 lines 327–345): a no-op once `stat`
is at least `sourceEnd`; otherwise one underlying read into the buffer,
with `io.EOF` mapped to `stat := finished`, `endOfSource` to
`stat := sourceEnd`, any other error propagated, and a zero-byte errorless
read reported as `"scan: empty read"`. -/
def loadBufN (n : Nat) (st : RxS) : Option RErr × RxS :=
  if 1 ≤ st.stat then (none, st)
  else
    match srcReadN n st.src with
    | ((bs, e), src') =>
      let st1 : RxS := ⟨bs, src', st.stat⟩
      match e with
      | some .eof => (none, { st1 with stat := 2 })
      | some .eos => (none, { st1 with stat := 1 })
      | some (.other m) => (some (.other m), st1)
      | none =>
        if bs.length = 0 then (some (.other "scan: empty read"), st1)
        else (none, st1)

/-- Responses plus bytes remaining in a scripted source (termination
measure for `rxReadLine`). -/
def srcMeasure (l : List Resp) : Nat :=
  l.length + (l.map (fun r => r.bytes.length)).sum

/-- The truncation `if len(line) > 0 && loc != nil { line = line[:loc[0]] }`
performed when the buffer stays empty at a boundary (part_000 lines
300–302). -/
def trimLoc (line : List Char) (loc : Option (Nat × Nat)) : List Char :=
  if line ≠ [] ∧ loc ≠ none then line.take ((loc.getD (0, 0)).1) else line

/-- `rxLineReader.ReadLine` (part_000 lines 292–323), with the loop state
(the accumulator `line`, the last `FindIndex` result `loc`, and the reader
state) made explicit; `n` is the buffer size (`_bufSize`: 4096 in
production, adjustable for tests) and `f` is the record-separator regex
represented by its `FindIndex` function, returning the `[start, end)`
offsets of the leftmost match.  The external entry point is `line = []`,
`loc = none`. -/
def rxReadLine (n : Nat) (f : List Char → Option (Nat × Nat))
    (line : List Char) (loc : Option (Nat × Nat)) (st : RxS) :
    (List Char × Option RErr) × RxS :=
  if hp : st.ptr = [] then
    match hl : loadBufN n st with
    | (some e, st') => (([], some e), st')
    | (none, st') =>
      if hb : 1 ≤ st'.stat ∧ st'.ptr = [] then
        if 2 ≤ st'.stat then
          if trimLoc line loc ≠ [] then ((trimLoc line loc, none), st')
          else ((trimLoc line loc, some .eof), st')
        else ((trimLoc line loc, none), { st' with stat := 0 })
      else
        match f (line ++ st'.ptr) with
        | some l =>
          if l.2 = (line ++ st'.ptr).length then
            rxReadLine n f (line ++ st'.ptr) (some l) { st' with ptr := [] }
          else (((line ++ st'.ptr).take l.1, none),
            { st' with ptr := (line ++ st'.ptr).drop l.2 })
        | none => rxReadLine n f (line ++ st'.ptr) none { st' with ptr := [] }
  else
    match f (line ++ st.ptr) with
    | some l =>
      if l.2 = (line ++ st.ptr).length then
        rxReadLine n f (line ++ st.ptr) (some l) { st with ptr := [] }
      else (((line ++ st.ptr).take l.1, none),
        { st with ptr := (line ++ st.ptr).drop l.2 })
    | none => rxReadLine n f (line ++ st.ptr) none { st with ptr := [] }
termination_by srcMeasure st.src + st.ptr.length
decreasing_by
  · have key : srcMeasure st'.src < srcMeasure st.src := by
      unfold loadBufN at hl
      by_cases hs : 1 ≤ st.stat
      · simp only [hs, if_pos] at hl
        injection hl with h1 h2
        subst h2
        exact absurd ⟨hs, hp⟩ hb
      · simp only [hs, if_neg, if_false] at hl
        cases hsrc : st.src with
        | nil =>
          rw [hsrc] at hl
          simp only [srcReadN] at hl
          injection hl with h1 h2
          subst h2
          exact absurd ⟨by norm_num, hp ▸ rfl⟩ hb
        | cons r rest =>
          rw [hsrc] at hl
          simp only [srcReadN] at hl
          by_cases hlen : r.bytes.length ≤ n
          · simp only [hlen, if_pos] at hl
            cases her : r.rerr with
            | some e =>
              cases e with
              | eof =>
                rw [her] at hl
                injection hl with h1 h2
                subst h2
                simp [srcMeasure]
                omega
              | eos =>
                rw [her] at hl
                injection hl with h1 h2
                subst h2
                simp [srcMeasure]
                omega
              | other m =>
                rw [her] at hl
                exact absurd (congrArg Prod.fst hl) (by simp)
            | none =>
              rw [her] at hl
              by_cases hz : r.bytes.length = 0
              · simp only [hz, if_pos] at hl
                exact absurd (congrArg Prod.fst hl) (by simp)
              · simp only [hz, if_neg, if_false] at hl
                injection hl with h1 h2
                subst h2
                simp [srcMeasure]
                omega
          · simp only [hlen, if_neg, if_false] at hl
            by_cases hz : (r.bytes.take n).length = 0
            · simp only [hz, if_pos] at hl
              exact absurd (congrArg Prod.fst hl) (by simp)
            · simp only [hz, if_neg, if_false] at hl
              injection hl with h1 h2
              subst h2
              simp only [srcMeasure, List.map_cons, List.sum_cons, List.length_cons,
                List.length_drop]
              have hn : 0 < n := by
                by_contra hn0
                push_neg at hn0
                interval_cases n
                simp at hz
              omega
    simpa [hp] using key
  · have key : srcMeasure st'.src < srcMeasure st.src := by
      unfold loadBufN at hl
      by_cases hs : 1 ≤ st.stat
      · simp only [hs, if_pos] at hl
        injection hl with h1 h2
        subst h2
        exact absurd ⟨hs, hp⟩ hb
      · simp only [hs, if_neg, if_false] at hl
        cases hsrc : st.src with
        | nil =>
          rw [hsrc] at hl
          simp only [srcReadN] at hl
          injection hl with h1 h2
          subst h2
          exact absurd ⟨by norm_num, hp ▸ rfl⟩ hb
        | cons r rest =>
          rw [hsrc] at hl
          simp only [srcReadN] at hl
          by_cases hlen : r.bytes.length ≤ n
          · simp only [hlen, if_pos] at hl
            cases her : r.rerr with
            | some e =>
              cases e with
              | eof =>
                rw [her] at hl
                injection hl with h1 h2
                subst h2
                simp [srcMeasure]
                omega
              | eos =>
                rw [her] at hl
                injection hl with h1 h2
                subst h2
                simp [srcMeasure]
                omega
              | other m =>
                rw [her] at hl
                exact absurd (congrArg Prod.fst hl) (by simp)
            | none =>
              rw [her] at hl
              by_cases hz : r.bytes.length = 0
              · simp only [hz, if_pos] at hl
                exact absurd (congrArg Prod.fst hl) (by simp)
              · simp only [hz, if_neg, if_false] at hl
                injection hl with h1 h2
                subst h2
                simp [srcMeasure]
                omega
          · simp only [hlen, if_neg, if_false] at hl
            by_cases hz : (r.bytes.take n).length = 0
            · simp only [hz, if_pos] at hl
              exact absurd (congrArg Prod.fst hl) (by simp)
            · simp only [hz, if_neg, if_false] at hl
              injection hl with h1 h2
              subst h2
              simp only [srcMeasure, List.map_cons, List.sum_cons, List.length_cons,
                List.length_drop]
              have hn : 0 < n := by
                by_contra hn0
                push_neg at hn0
                interval_cases n
                simp at hz
              omega
    simpa [hp] using key
  · have hlen : 0 < st.ptr.length := List.length_pos.mpr hp
    simp
    omega
  · have hlen : 0 < st.ptr.length := List.length_pos.mpr hp
    simp
    omega

/-- `regexp.FindIndex` for a literal (metacharacter-free) pattern: the
`[start, end)` byte offsets of the leftmost occurrence of `pat`, or `none`
when it does not occur. -/
def findSub (pat s : List Char) : Option (Nat × Nat) :=
  ((List.range (s.length + 1)).find? (fun i => pat.isPrefixOf (s.drop i))).map
    (fun i => (i, i + pat.length))

/-! ## Concrete instances for the verification scenarios -/

/-- `regexp.Split` for the literal field-separator pattern `","`: split at
every comma, keeping the (possibly empty) pieces between commas. -/
def commaSplit : String → List String := fun s =>
  (splitChars (fun c => c = ',') s.toList).map (fun l => String.mk l)

/-- The field-trimming rule in the words of the specification (§4.5), for
comparison with `splitRecord`: after splitting, drop a leading empty field
if present, then drop a trailing empty field if present; interior empty
fields are kept. -/
def specTrim (parts : List String) : List String :=
  let p1 := if parts.head? = some "" then parts.tail else parts
  if p1.getLast? = some "" then p1.dropLast else p1

/-- A freshly configured scanner (default separators) whose source delivers
the single input "a b c\nd  e\n" and then EOF. -/
def c1sc : Scanner :=
  ⟨some [.data "a b c\nd  e\n", .rerr .eof], none, none, 0, 0, "", []⟩

/-- A fresh scanner over the concatenation of two sources "ab" and "cd\n";
the boundary surfaces as the `endOfSource` sentinel between the chunks. -/
def c2sc : Scanner :=
  ⟨some [.data "ab", .rerr .eos, .data "cd\n", .rerr .eof], none, none, 0, 0, "", []⟩

/-- A fresh scanner whose source errors with "disk failure" after
delivering "x", then delivers "y\n" before EOF. -/
def c3sc : Scanner :=
  ⟨some [.data "x", .rerr (.other "disk failure"), .data "y\n", .rerr .eof],
    none, none, 0, 0, "", []⟩

/-- A scanner with the literal "," field separator set. -/
def c7sc : Scanner := ⟨none, some commaSplit, none, 0, 0, "", []⟩

/-- A scanner holding a two-field record and no sticky error. -/
def c8sc : Scanner := ⟨none, none, none, 1, 1, "a b", ["a", "b"]⟩

/-- A scanner with a sticky error set. -/
def c10sc : Scanner := ⟨none, none, some "boom", 0, 0, "ab", ["ab"]⟩

/-! ## Claims -/

/-- C1 (code bug in the source): `Scan` does not advance one record at a
time — its `ioutil.ReadAll` consumes the whole remaining input as a single
record.  On input "a b c\nd  e\n" with default separators the first `Scan`
succeeds but yields the entire input (five fields) as the record instead
of the first line "a b c", and the second `Scan` already returns false
with `Err()` nil. -/
theorem c1_scan_bulk_read :
    (scan c1sc).1 = true ∧
    (scan c1sc).2.record = "a b c\nd  e\n" ∧
    (scan c1sc).2.record ≠ "a b c" ∧
    (scan c1sc).2.fields = ["a", "b", "c", "d", "e"] ∧
    recordNumber (scan c1sc).2 = 1 ∧
    fileRecordNumber (scan c1sc).2 = 1 ∧
    (scan (scan c1sc).2).1 = false ∧
    errOf (scan (scan c1sc).2).2 = none := by
  decide

/-- C2 (code bug in the source): on a source boundary `Scan` fails instead
of resetting the per-file counter — `ioutil.ReadAll` stops at the
`endOfSource` sentinel, which the `fail` test treats as an error, and the
commented-out `fileRecNumber = 0` reset never runs.  With sources "ab" and
"cd\n" the first `Scan` returns false (the claimed record "ab" with
FNR 1 is never produced) and the following `Scan` yields "cd\n" as
record number 1. -/
theorem c2_boundary_divergence :
    (scan c2sc).1 = false ∧
    errOf (scan c2sc).2 = none ∧
    fileRecordNumber (scan c2sc).2 = 0 ∧
    (scan (scan c2sc).2).1 = true ∧
    (scan (scan c2sc).2).2.record = "cd\n" ∧
    recordNumber (scan (scan c2sc).2).2 = 1 := by
  decide

/-- C3 (code bug in the source): a non-EOF read error does not become
sticky — `Scan` returns false but never assigns `sc.err`, so `Err()`
stays nil and a later `Scan` can succeed and advance the counters. -/
theorem c3_error_not_sticky :
    (scan c3sc).1 = false ∧
    errOf (scan c3sc).2 = none ∧
    (scan (scan c3sc).2).1 = true ∧
    recordNumber (scan (scan c3sc).2).2 = 1 := by
  decide

/-- C4 (code bug in the source): `simpleLineReader.ReadLine` strips the
last byte of the returned slice even when EOF was reached with pending
bytes and that byte is not a newline: on remaining input "ab" it returns
("a", EOF) instead of the claimed ("ab", EOF).  The delimited case and
the empty-at-EOF case behave as claimed. -/
theorem c4_readline_strips_data_byte :
    slrReadLine "ab".toList = (("a".toList, some .eof), []) ∧
    "a".toList ≠ "ab".toList ∧
    slrReadLine "a b c\nrest".toList = (("a b c".toList, none), "rest".toList) ∧
    slrReadLine ([] : List Char) = (([], some .eof), []) := by
  decide

/-- C5 counterexample: for `simpleLineReader.ReadLine` the claimed
equivalence "non-empty bytes iff nil error" fails in both directions: on
remaining input "ab" it returns non-empty bytes together with EOF, and on
remaining input "\n" it returns empty bytes with nil error. -/
theorem c5_counterexample :
    ¬ (((slrReadLine "ab".toList).1.1 ≠ [] ↔ (slrReadLine "ab".toList).1.2 = none) ∧
       (((slrReadLine ['\n']).1.1 ≠ [] ↔ (slrReadLine ['\n']).1.2 = none))) := by
  decide

/-- C5 (amended): for `rxLineReader.ReadLine`, whenever an error is
returned the record bytes are empty — in particular EOF is never returned
together with non-empty record bytes.  (The equivalence claimed for both
readers fails: both readers can return empty bytes with nil error, and
`simpleLineReader.ReadLine` can return bytes together with EOF.) -/
theorem c5_rx_error_implies_empty (n : Nat) (f : List Char → Option (Nat × Nat))
    (line : List Char) (loc : Option (Nat × Nat)) (st : RxS) :
    ∀ res e1 st2, rxReadLine n f line loc st = ((res, some e1), st2) → res = [] := by
  induction line, loc, st using rxReadLine.induct n f with
  | case1 line loc st hp e st' hl =>
    intro res e1 st2 h
    rw [rxReadLine.eq_1, dif_pos hp] at h
    split at h
    · injection h with h1 h2
      injection h1 with h3 h4
      exact h3.symm
    · rename_i heq
      rw [hl] at heq
      injection heq with hx hy
      exact Option.noConfusion hx
  | case2 line loc st hp st' hl hb h2 hne =>
    intro res e1 st2 h
    rw [rxReadLine.eq_1, dif_pos hp] at h
    split at h
    · rename_i heq
      rw [hl] at heq
      injection heq with hx hy
      exact Option.noConfusion hx
    · rename_i heq
      rw [hl] at heq
      injection heq with hx hy
      subst hy
      rw [dif_pos hb, if_pos h2, if_pos hne] at h
      injection h with h1 h2x
      injection h1 with h3 h4
      exact Option.noConfusion h4
  | case3 line loc st hp st' hl hb h2 hne =>
    intro res e1 st2 h
    rw [rxReadLine.eq_1, dif_pos hp] at h
    split at h
    · rename_i heq
      rw [hl] at heq
      injection heq with hx hy
      exact Option.noConfusion hx
    · rename_i heq
      rw [hl] at heq
      injection heq with hx hy
      subst hy
      rw [dif_pos hb, if_pos h2, if_neg hne] at h
      injection h with h1 h2x
      injection h1 with h3 h4
      simp only [not_not] at hne
      rw [← h3, hne]
  | case4 line loc st hp st' hl hb h2 =>
    intro res e1 st2 h
    rw [rxReadLine.eq_1, dif_pos hp] at h
    split at h
    · rename_i heq
      rw [hl] at heq
      injection heq with hx hy
      exact Option.noConfusion hx
    · rename_i heq
      rw [hl] at heq
      injection heq with hx hy
      subst hy
      rw [dif_pos hb, if_neg h2] at h
      injection h with h1 h2x
      injection h1 with h3 h4
      exact Option.noConfusion h4
  | case5 line loc st hp st' hl hb l hf hl2 ih =>
    intro res e1 st2 h
    rw [rxReadLine.eq_1, dif_pos hp] at h
    split at h
    · rename_i heq
      rw [hl] at heq
      injection heq with hx hy
      exact Option.noConfusion hx
    · rename_i heq
      rw [hl] at heq
      injection heq with hx hy
      subst hy
      rw [dif_neg hb] at h
      split at h
      · rename_i l2 heq2
        rw [hf] at heq2
        injection heq2 with hfe
        subst hfe
        rw [if_pos hl2] at h
        exact ih res e1 st2 h
      · rename_i heq2
        rw [hf] at heq2
        exact Option.noConfusion heq2
  | case6 line loc st hp st' hl hb l hf hl2 =>
    intro res e1 st2 h
    rw [rxReadLine.eq_1, dif_pos hp] at h
    split at h
    · rename_i heq
      rw [hl] at heq
      injection heq with hx hy
      exact Option.noConfusion hx
    · rename_i heq
      rw [hl] at heq
      injection heq with hx hy
      subst hy
      rw [dif_neg hb] at h
      split at h
      · rename_i l2 heq2
        rw [hf] at heq2
        injection heq2 with hfe
        subst hfe
        rw [if_neg hl2] at h
        injection h with h1 h2x
        injection h1 with h3 h4
        exact Option.noConfusion h4
      · rename_i heq2
        rw [hf] at heq2
        exact Option.noConfusion heq2
  | case7 line loc st hp st' hl hb hf ih =>
    intro res e1 st2 h
    rw [rxReadLine.eq_1, dif_pos hp] at h
    split at h
    · rename_i heq
      rw [hl] at heq
      injection heq with hx hy
      exact Option.noConfusion hx
    · rename_i heq
      rw [hl] at heq
      injection heq with hx hy
      subst hy
      rw [dif_neg hb] at h
      split at h
      · rename_i l2 heq2
        rw [hf] at heq2
        exact Option.noConfusion heq2
      · exact ih res e1 st2 h
  | case8 line loc st hp l hf hl2 ih =>
    intro res e1 st2 h
    rw [rxReadLine.eq_1, dif_neg hp] at h
    split at h
    · rename_i l2 heq2
      rw [hf] at heq2
      injection heq2 with hfe
      subst hfe
      rw [if_pos hl2] at h
      exact ih res e1 st2 h
    · rename_i heq2
      rw [hf] at heq2
      exact Option.noConfusion heq2
  | case9 line loc st hp l hf hl2 =>
    intro res e1 st2 h
    rw [rxReadLine.eq_1, dif_neg hp] at h
    split at h
    · rename_i l2 heq2
      rw [hf] at heq2
      injection heq2 with hfe
      subst hfe
      rw [if_neg hl2] at h
      injection h with h1 h2x
      injection h1 with h3 h4
      exact Option.noConfusion h4
    · rename_i heq2
      rw [hf] at heq2
      exact Option.noConfusion heq2
  | case10 line loc st hp hf ih =>
    intro res e1 st2 h
    rw [rxReadLine.eq_1, dif_neg hp] at h
    split at h
    · rename_i l2 heq2
      rw [hf] at heq2
      exact Option.noConfusion heq2
    · exact ih res e1 st2 h

/-- Witness for the amended C5 at a source that fails with "boom": the
returned error comes with empty record bytes. -/
theorem c5_rx_error_implies_empty_witness :
    rxReadLine 4 (findSub "##".toList) [] none ⟨[], [⟨[], some (.other "boom")⟩], 0⟩ =
      (([], some (.other "boom")), ⟨[], [], 0⟩) ∧
    (rxReadLine 4 (findSub "##".toList) [] none ⟨[], [⟨[], some (.other "boom")⟩], 0⟩).1.1
      = [] := by
  have h : rxReadLine 4 (findSub "##".toList) [] none ⟨[], [⟨[], some (.other "boom")⟩], 0⟩ =
      (([], some (.other "boom")), ⟨[], [], 0⟩) := by
    simp [rxReadLine, loadBufN, srcReadN]
  refine ⟨h, ?_⟩
  exact c5_rx_error_implies_empty 4 (findSub "##".toList) [] none
    ⟨[], [⟨[], some (.other "boom")⟩], 0⟩ _ (.other "boom") ⟨[], [], 0⟩ (by rw [h])

/-- C6: `rxLineReader.ReadLine` with buffer size 4 and separator "##"
never commits a match that ends exactly at the end of the accumulated
bytes until a byte beyond it has been read or the stream has ended: input
"aa##bb##cc" yields the records "aa", "bb", "cc" (the separator straddling
the buffer boundary is not split), and input "x##" yields the single
record "x" and then EOF with no trailing empty record.  Each conjunct
feeds the state returned by the previous call into the next. -/
theorem c6_rx_boundary_straddle :
    (rxReadLine 4 (findSub "##".toList) [] none ⟨[], [⟨"aa##bb##cc".toList, none⟩], 0⟩ =
      (("aa".toList, none), ⟨"bb##".toList, [⟨"cc".toList, none⟩], 0⟩)) ∧
    (rxReadLine 4 (findSub "##".toList) [] none ⟨"bb##".toList, [⟨"cc".toList, none⟩], 0⟩ =
      (("bb".toList, none), ⟨"cc".toList, [], 0⟩)) ∧
    (rxReadLine 4 (findSub "##".toList) [] none ⟨"cc".toList, [], 0⟩ =
      (("cc".toList, none), ⟨[], [], 2⟩)) ∧
    (rxReadLine 4 (findSub "##".toList) [] none ⟨[], [], 2⟩ =
      (([], some .eof), ⟨[], [], 2⟩)) ∧
    (rxReadLine 4 (findSub "##".toList) [] none ⟨[], [⟨"x##".toList, none⟩], 0⟩ =
      (("x".toList, none), ⟨[], [], 2⟩)) := by
  refine ⟨?_, ?_, ?_, ?_, ?_⟩
  · simp [rxReadLine, loadBufN, srcReadN, findSub, trimLoc]
    decide
  · simp [rxReadLine, loadBufN, srcReadN, findSub, trimLoc]
    decide
  · simp [rxReadLine, loadBufN, srcReadN, findSub, trimLoc]
    decide
  · simp [rxReadLine, loadBufN, srcReadN, findSub, trimLoc]
  · simp [rxReadLine, loadBufN, srcReadN, findSub, trimLoc]
    decide

/-- C7 counterexample: with the literal "," field separator, the record
",,a" yields fields ["", "a"] with field count 2 — not the claimed
["", "", "a"] with count 3 — because `splitRecord` drops the leading empty
field produced by the split. -/
theorem c7_counterexample :
    (splitRecord c7sc ",,a").fields = ["", "a"] ∧
    (splitRecord c7sc ",,a").fields ≠ ["", "", "a"] ∧
    fieldCount (splitRecord c7sc ",,a") = 2 := by
  decide

/-- C7 (amended): with a field-separator regex set, field splitting
divides the record at all non-overlapping leftmost matches, then drops a
leading empty field if present and a trailing empty field if present,
keeping interior empty fields — so record ",,a" with FS "," yields
["", "a"] and field count 2 (see the witness), the leading empty having
been dropped. -/
theorem c7_regex_field_trim (sc : Scanner) (f : String → List String)
    (rec : String) (hf : sc.fieldsRx = some f) :
    (splitRecord sc rec).fields = specTrim (f rec) ∧
    (splitRecord sc rec).record = rec := by
  obtain ⟨lr, frx, er, rn, frn, rc, fl⟩ := sc
  simp only [Scanner.fieldsRx] at hf
  subst hf
  simp [splitRecord, specTrim]

/-- Witness for the amended C7 at the "," separator and record ",,a". -/
theorem c7_regex_field_trim_witness :
    (splitRecord c7sc ",,a").fields = specTrim (commaSplit ",,a") ∧
    specTrim (commaSplit ",,a") = ["", "a"] :=
  ⟨(c7_regex_field_trim c7sc commaSplit ",,a" rfl).1, by decide⟩

/-- C8: with no sticky error set, `Field(i)` returns the whole record for
`i = 0`, the i-th field for `1 ≤ i ≤ FieldCount()`, the empty string for
`i > FieldCount()`, and raises a runtime fault (modelled as `none`) for
negative `i`. -/
theorem c8_field_contract (sc : Scanner) (i : Int) (hok : sc.err = none) :
    (i = 0 → field sc i = some sc.record) ∧
    (1 ≤ i → i ≤ sc.fields.length → field sc i = sc.fields.get? (i.toNat - 1)) ∧
    ((sc.fields.length : Int) < i → field sc i = some "") ∧
    (i < 0 → field sc i = none) := by
  refine ⟨?_, ?_, ?_, ?_⟩
  · intro h0
    subst h0
    simp [field, hok]
  · intro h1 h2
    have hn0 : ¬ i < 0 := by omega
    have hne : ¬ i = 0 := by omega
    simp [field, hok, hn0, hne, h2]
  · intro hgt
    have hn0 : ¬ i < 0 := by omega
    have hne : ¬ i = 0 := by omega
    have hnle : ¬ i ≤ (sc.fields.length : Int) := by omega
    simp [field, hok, hn0, hne, hnle]
  · intro hneg
    simp [field, hok, hneg]

/-- Witness for C8 on a two-field scanner at indices 0, 2, 3 and -1. -/
theorem c8_field_contract_witness :
    field c8sc 0 = some "a b" ∧ field c8sc 2 = some "b" ∧
    field c8sc 3 = some "" ∧ field c8sc (-1) = none := by
  refine ⟨(c8_field_contract c8sc 0 rfl).1 rfl, ?_, ?_, ?_⟩
  · have h := (c8_field_contract c8sc 2 rfl).2.1 (by decide) (by decide)
    rw [h]
    decide
  · exact (c8_field_contract c8sc 3 rfl).2.2.1 (by decide)
  · exact (c8_field_contract c8sc (-1) rfl).2.2.2 (by decide)

/-- C9: `multiSource.Read` — when the current entry's read returns EOF the
entry is popped and, if entries remain, the call returns the `endOfSource`
sentinel with the byte count left untouched (the returned cursor shows
subsequent reads serve the next entry); when the last entry returns EOF,
or the entry list is empty, Read returns EOF; `Name` returns the name of
the entry at the cursor, or the empty string when exhausted. -/
theorem c9_multisource_read (nm : String) (k : Nat)
    (stp : List (Nat × Option RErr)) (rest : List Src) (hrest : rest ≠ []) :
    msRead (⟨nm, (k, some .eof) :: stp⟩ :: rest) = ((k, some .eos), rest) ∧
    msRead [⟨nm, (k, some .eof) :: stp⟩] = ((k, some .eof), []) ∧
    msRead ([] : List Src) = ((0, some .eof), []) ∧
    msName ([] : List Src) = "" ∧
    msName (⟨nm, (k, some .eof) :: stp⟩ :: rest) = nm := by
  refine ⟨?_, ?_, ?_, rfl, rfl⟩
  · rw [msRead]
    simp [srcRead, hrest]
  · rw [msRead]
    simp [srcRead]
  · rw [msRead]

/-- Witness for C9 at a concrete two-entry source list. -/
theorem c9_multisource_read_witness :
    msRead [⟨"a", [(2, some RErr.eof)]⟩, ⟨"b", []⟩] = ((2, some .eos), [⟨"b", []⟩]) :=
  (c9_multisource_read "a" 2 [] [⟨"b", []⟩] (by simp)).1

/-- C10 (implicit): once the sticky error is set, `Field(i)` returns the
empty string for every index `i`, including every negative one — the
error check precedes the index validation, so the panic branch is
unreachable. -/
theorem c10_field_sticky (sc : Scanner) (i : Int) (e : String)
    (he : sc.err = some e) :
    field sc i = some "" := by
  simp [field, he]

/-- Witness for C10 at a negative index on an erred scanner. -/
theorem c10_field_sticky_witness : field c10sc (-3) = some "" :=
  c10_field_sticky c10sc (-3) "boom" rfl

end Scan
